import Mathlib

/-!
Shallow embedding of `TwoPopulationSimulation.py`: two interacting neural
populations on a ring with leaky-integrator membrane potentials, circular
(cosine/sine) recurrent coupling, an optional external pulse and an optional
precomputed head-population drive.

Modelling conventions:
* numpy float arithmetic is modelled over an arbitrary linear ordered field
  `K` with a floor (instantiated at `ℚ` for concrete evaluation and at `ℝ`
  where `π` matters);
* `np.cos`, `np.sin` and the external activation `g` are abstract function
  fields of the configuration (the core treats them as opaque collaborators);
* the random draws (`np.random.binomial` spike sampling and the two
  initial-voltage draws) are oracle fields: `bernL t i p` is the left
  population's draw for row `t`, neuron `i`, with success probability `p`;
* a numpy `IndexError` (out-of-bounds read of the head drive, or an empty
  state array written at row 0) is modelled as `Option.none`;
* an `N`-vector is a function `Fin N → K`; a time series row holds
  `(h, r, s)` for one population.
-/

namespace TwoPop

abbrev Vec (K : Type) (N : ℕ) : Type := Fin N → K

/-- One population's row at a fixed time step: membrane potential `h`,
firing rate `r`, spike data `s`. -/
abbrev Pop (K : Type) (N : ℕ) : Type := Vec K N × Vec K N × Vec K N

/-- Rows of both populations (left, right) at a fixed time step. -/
abbrev State (K : Type) (N : ℕ) : Type := Pop K N × Pop K N

/-- The head population link supplied to the constructor: its own neuron
count `M`, the length `steps` of its spike time series, its angular
positions `x` and its spike series `s` (`head_population.x` and
`head_population.s` in the source). -/
structure HeadPop (K : Type) where
  M : ℕ
  steps : ℕ
  x : Vec K M
  s : Fin steps → Vec K M

/-- The configuration stored by `TwoPopulationSimulation.__init__`, plus the
abstract collaborators (`cos`, `sin`, `g`) and the randomness oracles.
`I_head` is the precomputed head drive (`some` of its value list when a head
population was supplied, `none` otherwise, mirroring `w_head is None`);
`twoPi` stands for the numpy constant `2 * np.pi`. -/
structure Sim (K : Type) where
  N : ℕ
  delta_t : K
  tau : K
  T : K
  R : K
  r_0 : K
  alpha : K
  beta : K
  J : K
  theta : K
  I0 : K
  I_ext : Bool
  J_head : K
  I_head : Option (List K)
  twoPi : K
  cos : K → K
  sin : K → K
  g : K → K → K → K
  initL : Vec K N
  initR : Vec K N
  bernL : ℕ → Fin N → K → K
  bernR : ℕ → Fin N → K → K

variable {K : Type} [LinearOrderedField K]

/-- `np.mean` of an `n`-vector: the sum of the entries divided by `n`. -/
def mean {n : ℕ} (v : Vec K n) : K :=
  (∑ i, v i) / (n : K)

/-- `np.linspace a b n` with `endpoint=True`: `n` evenly spaced values from
`a` to `b` inclusive; for `n = 1` numpy returns the single value `a`. -/
def linspace (a b : K) (n : ℕ) : Vec K n :=
  fun i => if n = 1 then a else a + ((i : ℕ) : K) * ((b - a) / ((n : K) - 1))

/-- `initialize_positions`: `np.linspace(0, 2*np.pi, N)`. -/
def initialize_positions (sim : Sim K) : Vec K sim.N :=
  linspace 0 sim.twoPi sim.N

/-- `int(self.T/self.delta_t)`: the number of rows of the state arrays.
Python truncates toward zero; a nonpositive row count (which makes the run
fail before any row is produced) is mapped to `0`. -/
def numSteps [FloorRing K] (sim : Sim K) : ℕ :=
  (⌊sim.T / sim.delta_t⌋).toNat

/-- `external_input`: the pulse current `I0` while `300 <= t < 600`
(`t` being the simulated time handed in), and `0` otherwise. -/
def external_input (sim : Sim K) (t : K) : K :=
  if 300 ≤ t ∧ t < 600 then sim.I0 else 0

/-- `two_population_recurrent_input`: circular moments of both populations'
activity, pooled, then projected back per neuron (source lines 134-141). -/
def two_population_recurrent_input (sim : Sim K) (xL xR SL SR : Vec K sim.N)
    (J θ : K) : Vec K sim.N × Vec K sim.N :=
  let mcos_L := mean (fun i => sim.cos (xL i) * SL i)
  let mcos_R := mean (fun i => sim.cos (xR i) * SR i)
  let msin_L := mean (fun i => sim.sin (xL i) * SL i)
  let msin_R := mean (fun i => sim.sin (xR i) * SR i)
  (fun i => J * (sim.cos (xL i + θ) * (mcos_L + mcos_R)
      + sim.sin (xL i + θ) * (msin_L + msin_R)),
   fun i => J * (sim.cos (xR i - θ) * (mcos_L + mcos_R)
      + sim.sin (xR i - θ) * (msin_L + msin_R)))

/-- `first_step_update` for one population: the initial voltage draw, the
derived rate `r_0 * g(h0, alpha, beta)`, and one spike draw with success
probability `r0 * delta_t` (row index 0 of the oracle). -/
def first_step_update (sim : Sim K) (initial_voltage : Vec K sim.N)
    (bern : ℕ → Fin sim.N → K → K) : Pop K sim.N :=
  let h0 := initial_voltage
  let r0 : Vec K sim.N := fun i => sim.r_0 * sim.g (h0 i) sim.alpha sim.beta
  let s0 : Vec K sim.N := fun i => bern 0 i (r0 i * sim.delta_t)
  (h0, r0, s0)

/-- `update(t, IL, IR)`: writes row `t+1` of both populations from row `t`
and the input currents (source lines 109-115): explicit Euler step for `h`,
then `r = r_0 * g(h, alpha, beta)`, then a spike draw with success
probability `r * delta_t`. -/
def update (sim : Sim K) (t : ℕ) (st : State K sim.N)
    (IL IR : Vec K sim.N) : State K sim.N :=
  let hL : Vec K sim.N := fun i =>
    st.1.1 i + sim.delta_t / sim.tau * (-st.1.1 i + sim.R * IL i)
  let rL : Vec K sim.N := fun i => sim.r_0 * sim.g (hL i) sim.alpha sim.beta
  let sL : Vec K sim.N := fun i => sim.bernL (t + 1) i (rL i * sim.delta_t)
  let hR : Vec K sim.N := fun i =>
    st.2.1 i + sim.delta_t / sim.tau * (-st.2.1 i + sim.R * IR i)
  let rR : Vec K sim.N := fun i => sim.r_0 * sim.g (hR i) sim.alpha sim.beta
  let sR : Vec K sim.N := fun i => sim.bernR (t + 1) i (rR i * sim.delta_t)
  ((hL, rL, sL), (hR, rR, sR))

/-- The head drive computed once by the constructor (source lines 24-29):
`I_head = J_head * np.mean(head_population.s/delta_t * w_head, axis=1)`,
where `w_head` is `cos` of the head positions when the cosine projection is
selected (`x=True` in the source) and `sin` of them otherwise. -/
def headDrive (J_head delta_t : K) (cosf sinf : K → K) (hp : HeadPop K)
    (useCos : Bool) : List K :=
  let w_head : Vec K hp.M :=
    if useCos then fun i => cosf (hp.x i) else fun i => sinf (hp.x i)
  List.ofFn fun t : Fin hp.steps =>
    J_head * mean (fun i => hp.s t i / delta_t * w_head i)

/-- The loop body's input currents before the head drive (source lines
185-189): the recurrent input evaluated at the instantaneous rates
`s[t]/delta_t`, minus/plus the external pulse when `I_ext` is set. -/
def baseInputs (sim : Sim K) (t : ℕ) (st : State K sim.N) :
    Vec K sim.N × Vec K sim.N :=
  let xL := initialize_positions sim
  let xR := initialize_positions sim
  let p := two_population_recurrent_input sim xL xR
    (fun i => st.1.2.2 i / sim.delta_t) (fun i => st.2.2.2 i / sim.delta_t)
    sim.J sim.theta
  (if sim.I_ext then
      fun i => p.1 i - external_input sim ((t : K) * sim.delta_t)
    else p.1,
   if sim.I_ext then
      fun i => p.2 i + external_input sim ((t : K) * sim.delta_t)
    else p.2)

/-- The full input currents of loop iteration `t` (source lines 185-194):
the base inputs, with `I_head[t]` subtracted on the left and added on the
right when a head population was supplied. `none` models the `IndexError`
raised when the stored head drive is too short to be indexed at `t`. -/
def stepInputs (sim : Sim K) (t : ℕ) (st : State K sim.N) :
    Option (Vec K sim.N × Vec K sim.N) :=
  match sim.I_head with
  | none => some (baseInputs sim t st)
  | some l =>
    match l.get? t with
    | none => none
    | some v => some (fun i => (baseInputs sim t st).1 i - v,
                      fun i => (baseInputs sim t st).2 i + v)

/-- Row `t` of the run: row 0 comes from the two `first_step_update` calls
(each population with its own initial-voltage draw), and row `t+1` from the
loop body applied to row `t`. `none` propagates a failed head-drive read. -/
def rowsAux (sim : Sim K) : ℕ → Option (State K sim.N)
  | 0 => some (first_step_update sim sim.initL sim.bernL,
               first_step_update sim sim.initR sim.bernR)
  | t + 1 =>
    (rowsAux sim t).bind fun st =>
      (stepInputs sim t st).map fun I => update sim t st I.1 I.2

/-- Row `t` of the run, with a zero row as the (never observed) fallback. -/
def rowAt (sim : Sim K) (t : ℕ) : State K sim.N :=
  (rowsAux sim t).getD
    ((fun _ => 0, fun _ => 0, fun _ => 0), (fun _ => 0, fun _ => 0, fun _ => 0))

/-- The returned `hL` series: one `N`-row per time step. -/
def hLseries [FloorRing K] (sim : Sim K) : List (List K) :=
  (List.range (numSteps sim)).map fun t => List.ofFn fun i => (rowAt sim t).1.1 i

/-- The returned `sL` series. -/
def sLseries [FloorRing K] (sim : Sim K) : List (List K) :=
  (List.range (numSteps sim)).map fun t => List.ofFn fun i => (rowAt sim t).1.2.2 i

/-- The returned `hR` series. -/
def hRseries [FloorRing K] (sim : Sim K) : List (List K) :=
  (List.range (numSteps sim)).map fun t => List.ofFn fun i => (rowAt sim t).2.1 i

/-- The returned `sR` series. -/
def sRseries [FloorRing K] (sim : Sim K) : List (List K) :=
  (List.range (numSteps sim)).map fun t => List.ofFn fun i => (rowAt sim t).2.2.2 i

/-- `simulation`: fills row 0, runs the loop for `t = 0 .. num_steps - 2`,
and returns `(hL, sL, hR, sR)`. `none` models the run dying in an exception:
the row-0 write into an empty array when `num_steps < 1`, or a failed head
drive read inside the loop. -/
def simulation [FloorRing K] (sim : Sim K) :
    Option (List (List K) × List (List K) × List (List K) × List (List K)) :=
  if numSteps sim = 0 then none
  else if (rowsAux sim (numSteps sim - 1)).isSome then
    some (hLseries sim, sLseries sim, hRseries sim, sRseries sim)
  else none

/-- The Python argument passed for `initial_voltage`. `classAttr` is the
default `initial_voltage = uniform_voltage`: the plain class-level function
object, which still expects the instance argument. `boundMethod d` is a
zero-argument callable (such as `sim.uniform_voltage`), `d` giving the
vector drawn by its call for the left (`true`) and right (`false`)
population. -/
inductive InitArg (K : Type) (N : ℕ) where
  | classAttr : InitArg K N
  | boundMethod : (Bool → Vec K N) → InitArg K N

/-- Calling the supplied initializer with zero arguments, as
`first_step_update` does via `initial_voltage()`. Calling the plain
class-level function this way raises `TypeError` (missing `self`),
modelled as `none`. -/
def callInit {N : ℕ} (iv : InitArg K N) (side : Bool) : Option (Vec K N) :=
  match iv with
  | .classAttr => none
  | .boundMethod d => some (d side)

/-- `simulation(initial_voltage = uniform_voltage)` as actually callable
from Python: both `first_step_update` calls must succeed in calling the
initializer before the run proceeds. -/
def simulationWithInit [FloorRing K] (sim : Sim K) (iv : InitArg K sim.N := InitArg.classAttr) :
    Option (List (List K) × List (List K) × List (List K) × List (List K)) :=
  match callInit iv true, callInit iv false with
  | some vL, some vR => simulation { sim with initL := vL, initR := vR }
  | _, _ => none

/-! Concrete configurations over `ℚ`, used to evaluate the embedding at
explicit inputs: one neuron, `delta_t = 1`, `T = 2` (two rows), all
collaborator functions and oracles constantly `0`. -/

def simQ : Sim ℚ where
  N := 1
  delta_t := 1
  tau := 1
  T := 2
  R := 0
  r_0 := 0
  alpha := 0
  beta := 0
  J := 0
  theta := 0
  I0 := 0
  I_ext := false
  J_head := 0
  I_head := none
  twoPi := 7
  cos := fun _ => 0
  sin := fun _ => 0
  g := fun _ _ _ => 0
  initL := fun _ => 0
  initR := fun _ => 0
  bernL := fun _ _ _ => 0
  bernR := fun _ _ _ => 0

/-- `simQ` with a nonpositive membrane time constant. -/
def simQtau : Sim ℚ :=
  { simQ with tau := -1 }

/-- `simQ` with a stored head drive of length 1 (one fewer than its two
time steps). -/
def simQhead : Sim ℚ :=
  { simQ with I_head := some [0] }

/-- `simQ` with three time steps and a stored head drive of length 1. -/
def simQhead2 : Sim ℚ :=
  { simQ with T := 3, I_head := some [0] }

/-- `simQ` with the external pulse enabled at amplitude `I0 = 5`. -/
def simQpulse : Sim ℚ :=
  { simQ with I_ext := true, I0 := 5 }

/-- A one-neuron, one-step head population over `ℚ`. -/
def hpQ : HeadPop ℚ where
  M := 1
  steps := 1
  x := fun _ => 0
  s := fun _ _ => 0

/-- `simQ` with the head drive the constructor computes from `hpQ` with the
cosine projection. -/
def simQC4 : Sim ℚ :=
  { simQ with I_head := some (headDrive (0 : ℚ) 1 (fun _ => 0) (fun _ => 0) hpQ true) }

/-- A one-neuron configuration over `ℝ` with the program's actual ring
constant `2 * π`. -/
noncomputable def simR1 : Sim ℝ where
  N := 1
  delta_t := 0
  tau := 0
  T := 0
  R := 0
  r_0 := 0
  alpha := 0
  beta := 0
  J := 0
  theta := 0
  I0 := 0
  I_ext := false
  J_head := 0
  I_head := none
  twoPi := 2 * Real.pi
  cos := fun _ => 0
  sin := fun _ => 0
  g := fun _ _ _ => 0
  initL := fun _ => 0
  initR := fun _ => 0
  bernL := fun _ _ _ => 0
  bernR := fun _ _ _ => 0

/-- `simR1` with two neurons. -/
noncomputable def simR2 : Sim ℝ :=
  { simR1 with N := 2, initL := fun _ => 0, initR := fun _ => 0,
               bernL := fun _ _ _ => 0, bernR := fun _ _ _ => 0 }

/-! Helper lemmas about the run. -/

theorem rowsAux_succ (sim : Sim K) (t : ℕ) :
    rowsAux sim (t + 1) = (rowsAux sim t).bind fun st =>
      (stepInputs sim t st).map fun I => update sim t st I.1 I.2 := rfl

theorem stepInputs_noHead (sim : Sim K) (hh : sim.I_head = none) (t : ℕ)
    (st : State K sim.N) :
    stepInputs sim t st = some (baseInputs sim t st) := by
  simp [stepInputs, hh]

theorem rowsAux_isSome_noHead (sim : Sim K) (hh : sim.I_head = none) (t : ℕ) :
    (rowsAux sim t).isSome = true := by
  induction t with
  | zero => rfl
  | succ t ih =>
    rcases Option.isSome_iff_exists.mp ih with ⟨st, hst⟩
    rw [rowsAux_succ, hst, Option.some_bind, stepInputs_noHead sim hh]
    rfl

theorem rowsAux_isSome_head (sim : Sim K) (l : List K) (hh : sim.I_head = some l)
    (t : ℕ) : (rowsAux sim t).isSome = true ↔ t ≤ l.length := by
  induction t with
  | zero => simp [rowsAux]
  | succ t ih =>
    rw [rowsAux_succ]
    rcases h : rowsAux sim t with _ | st
    · rw [h] at ih
      simp only [Option.none_bind]
      simp at ih ⊢
      omega
    · rw [h] at ih
      simp only [Option.isSome_some, true_iff] at ih
      rw [Option.some_bind]
      rcases hg : l.get? t with _ | v
      · have hlen : l.length ≤ t := List.get?_eq_none.mp hg
        simp only [stepInputs, hh, hg]
        simp
        omega
      · have hlt : t < l.length := by
          by_contra hc
          rw [List.get?_eq_none.mpr (by omega)] at hg
          cases hg
        simp only [stepInputs, hh, hg]
        simp
        omega

theorem rowsAux_eq_some (sim : Sim K) (t : ℕ)
    (h : (rowsAux sim t).isSome = true) :
    rowsAux sim t = some (rowAt sim t) := by
  rcases Option.isSome_iff_exists.mp h with ⟨st, hst⟩
  simp [rowAt, hst]

/-! Claim theorems. -/

/-- C1: for every loop step `t` whose successor row exists, the integrator
advances each population's membrane potential by the explicit Euler rule
`h[t+1] = h[t] + (delta_t/tau) * (-h[t] + R * I[t])` using that population's
own input current of that step, then sets `r[t+1] = r_0 * g(h[t+1], alpha,
beta)`, then draws `s[t+1]` through the Bernoulli oracle with success
probability `r[t+1] * delta_t`; row 0 is produced by `first_step_update`,
never by this update. -/
theorem C1_euler_update [FloorRing K] (sim : Sim K) (t : ℕ)
    (h1 : (rowsAux sim (t + 1)).isSome = true) :
    ∃ I : Vec K sim.N × Vec K sim.N,
      stepInputs sim t (rowAt sim t) = some I ∧
      rowAt sim (t + 1) = update sim t (rowAt sim t) I.1 I.2 ∧
      (∀ i, (rowAt sim (t + 1)).1.1 i
          = (rowAt sim t).1.1 i
            + sim.delta_t / sim.tau * (-(rowAt sim t).1.1 i + sim.R * I.1 i)) ∧
      (∀ i, (rowAt sim (t + 1)).1.2.1 i
          = sim.r_0 * sim.g ((rowAt sim (t + 1)).1.1 i) sim.alpha sim.beta) ∧
      (∀ i, (rowAt sim (t + 1)).1.2.2 i
          = sim.bernL (t + 1) i ((rowAt sim (t + 1)).1.2.1 i * sim.delta_t)) ∧
      (∀ i, (rowAt sim (t + 1)).2.1 i
          = (rowAt sim t).2.1 i
            + sim.delta_t / sim.tau * (-(rowAt sim t).2.1 i + sim.R * I.2 i)) ∧
      (∀ i, (rowAt sim (t + 1)).2.2.1 i
          = sim.r_0 * sim.g ((rowAt sim (t + 1)).2.1 i) sim.alpha sim.beta) ∧
      (∀ i, (rowAt sim (t + 1)).2.2.2 i
          = sim.bernR (t + 1) i ((rowAt sim (t + 1)).2.2.1 i * sim.delta_t)) ∧
      rowsAux sim 0 = some (first_step_update sim sim.initL sim.bernL,
                            first_step_update sim sim.initR sim.bernR) := by
  rcases hrt : rowsAux sim t with _ | st
  · rw [rowsAux_succ, hrt, Option.none_bind] at h1
    cases h1
  · rcases hI : stepInputs sim t st with _ | I
    · rw [rowsAux_succ, hrt, Option.some_bind, hI] at h1
      cases h1
    · have hrow : rowAt sim t = st := by simp [rowAt, hrt]
      have h2 : rowsAux sim (t + 1) = some (update sim t st I.1 I.2) := by
        rw [rowsAux_succ, hrt, Option.some_bind, hI]
        rfl
      have hrow1 : rowAt sim (t + 1) = update sim t st I.1 I.2 := by
        simp [rowAt, h2]
      refine ⟨I, ?_, ?_, ?_, ?_, ?_, ?_, ?_, ?_, rfl⟩
      · rw [hrow]; exact hI
      · rw [hrow, hrow1]
      all_goals intro i
      all_goals simp only [hrow1, hrow]
      all_goals rfl

/-- Witness for C1 at the concrete configuration `simQ` and step `t = 0`. -/
theorem C1_euler_update_witness :
    ∃ I : Vec ℚ simQ.N × Vec ℚ simQ.N,
      stepInputs simQ 0 (rowAt simQ 0) = some I ∧
      rowAt simQ (0 + 1) = update simQ 0 (rowAt simQ 0) I.1 I.2 := by
  have h1 : (rowsAux simQ (0 + 1)).isSome = true := by
    simp [rowsAux, stepInputs, simQ]
  rcases C1_euler_update simQ 0 h1 with ⟨I, hI, hup, _⟩
  exact ⟨I, hI, hup⟩

/-- C2: the recurrent input is computed from the instantaneous rates
`s[t]/delta_t`: for any arguments, each neuron of the left population gets
`J * (cos(x_L[i]+theta) * C + sin(x_L[i]+theta) * S)` and each neuron of the
right population `J * (cos(x_R[i]-theta) * C + sin(x_R[i]-theta) * S)`,
where `C` and `S` pool the per-population circular moments
`mean(cos(position)*rate)` and `mean(sin(position)*rate)`; and the loop's
input (up to the pulse term) is exactly this formula applied to the step's
spike rows divided by `delta_t`. -/
theorem C2_recurrent_coupling (sim : Sim K) (xL xR SL SR : Vec K sim.N)
    (J θ : K) (t : ℕ) (st : State K sim.N) :
    (∀ i, (two_population_recurrent_input sim xL xR SL SR J θ).1 i
        = J * (sim.cos (xL i + θ)
              * ((∑ j, sim.cos (xL j) * SL j) / (sim.N : K)
                 + (∑ j, sim.cos (xR j) * SR j) / (sim.N : K))
            + sim.sin (xL i + θ)
              * ((∑ j, sim.sin (xL j) * SL j) / (sim.N : K)
                 + (∑ j, sim.sin (xR j) * SR j) / (sim.N : K)))) ∧
    (∀ i, (two_population_recurrent_input sim xL xR SL SR J θ).2 i
        = J * (sim.cos (xR i - θ)
              * ((∑ j, sim.cos (xL j) * SL j) / (sim.N : K)
                 + (∑ j, sim.cos (xR j) * SR j) / (sim.N : K))
            + sim.sin (xR i - θ)
              * ((∑ j, sim.sin (xL j) * SL j) / (sim.N : K)
                 + (∑ j, sim.sin (xR j) * SR j) / (sim.N : K)))) ∧
    (∀ i, (baseInputs sim t st).1 i
          + (if sim.I_ext = true
             then external_input sim ((t : K) * sim.delta_t) else 0)
        = sim.J * (sim.cos (initialize_positions sim i + sim.theta)
              * ((∑ j, sim.cos (initialize_positions sim j)
                    * (st.1.2.2 j / sim.delta_t)) / (sim.N : K)
                 + (∑ j, sim.cos (initialize_positions sim j)
                    * (st.2.2.2 j / sim.delta_t)) / (sim.N : K))
            + sim.sin (initialize_positions sim i + sim.theta)
              * ((∑ j, sim.sin (initialize_positions sim j)
                    * (st.1.2.2 j / sim.delta_t)) / (sim.N : K)
                 + (∑ j, sim.sin (initialize_positions sim j)
                    * (st.2.2.2 j / sim.delta_t)) / (sim.N : K)))) ∧
    (∀ i, (baseInputs sim t st).2 i
          - (if sim.I_ext = true
             then external_input sim ((t : K) * sim.delta_t) else 0)
        = sim.J * (sim.cos (initialize_positions sim i - sim.theta)
              * ((∑ j, sim.cos (initialize_positions sim j)
                    * (st.1.2.2 j / sim.delta_t)) / (sim.N : K)
                 + (∑ j, sim.cos (initialize_positions sim j)
                    * (st.2.2.2 j / sim.delta_t)) / (sim.N : K))
            + sim.sin (initialize_positions sim i - sim.theta)
              * ((∑ j, sim.sin (initialize_positions sim j)
                    * (st.1.2.2 j / sim.delta_t)) / (sim.N : K)
                 + (∑ j, sim.sin (initialize_positions sim j)
                    * (st.2.2.2 j / sim.delta_t)) / (sim.N : K)))) := by
  refine ⟨?_, ?_, ?_, ?_⟩
  · intro i
    simp only [two_population_recurrent_input, mean]
  · intro i
    simp only [two_population_recurrent_input, mean]
  · intro i
    rcases hb : sim.I_ext with _ | _
    · simp only [baseInputs, two_population_recurrent_input, mean, hb,
        Bool.false_eq_true, if_false]
      ring
    · simp only [baseInputs, two_population_recurrent_input, mean, hb, if_true]
      ring
  · intro i
    rcases hb : sim.I_ext with _ | _
    · simp only [baseInputs, two_population_recurrent_input, mean, hb,
        Bool.false_eq_true, if_false]
      ring
    · simp only [baseInputs, two_population_recurrent_input, mean, hb, if_true]
      ring

/-- C3: with the pulse enabled, the loop's inputs differ from the pure
recurrent inputs by exactly `-I0` (left) and `+I0` (right) if and only if
the simulated time `t * delta_t` lies in the half-open window `[300, 600)`,
and by `0` otherwise. -/
theorem C3_pulse_window (sim : Sim K) (hext : sim.I_ext = true) (t : ℕ)
    (st : State K sim.N) :
    (∀ i, (baseInputs sim t st).1 i
        = (two_population_recurrent_input sim (initialize_positions sim)
            (initialize_positions sim) (fun j => st.1.2.2 j / sim.delta_t)
            (fun j => st.2.2.2 j / sim.delta_t) sim.J sim.theta).1 i
          - (if 300 ≤ (t : K) * sim.delta_t ∧ (t : K) * sim.delta_t < 600
             then sim.I0 else 0)) ∧
    (∀ i, (baseInputs sim t st).2 i
        = (two_population_recurrent_input sim (initialize_positions sim)
            (initialize_positions sim) (fun j => st.1.2.2 j / sim.delta_t)
            (fun j => st.2.2.2 j / sim.delta_t) sim.J sim.theta).2 i
          + (if 300 ≤ (t : K) * sim.delta_t ∧ (t : K) * sim.delta_t < 600
             then sim.I0 else 0)) := by
  constructor
  · intro i
    simp only [baseInputs, hext, if_true, external_input]
  · intro i
    simp only [baseInputs, hext, if_true, external_input]

/-- Witness for C3 at `simQpulse` (with `I0 = 5`, `delta_t = 1`): the pulse
term evaluates to `0` at `t = 299`, to `5` at `t = 300` and `t = 599`, and
to `0` again at `t = 600`. -/
theorem C3_pulse_window_witness :
    (∀ i, (baseInputs simQpulse 300 (rowAt simQpulse 300)).1 i
        = (two_population_recurrent_input simQpulse
            (initialize_positions simQpulse) (initialize_positions simQpulse)
            (fun j => (rowAt simQpulse 300).1.2.2 j / simQpulse.delta_t)
            (fun j => (rowAt simQpulse 300).2.2.2 j / simQpulse.delta_t)
            simQpulse.J simQpulse.theta).1 i
          - (if 300 ≤ (300 : ℚ) * simQpulse.delta_t
                ∧ (300 : ℚ) * simQpulse.delta_t < 600
             then simQpulse.I0 else 0)) ∧
    external_input simQpulse ((299 : ℚ) * 1) = 0 ∧
    external_input simQpulse ((300 : ℚ) * 1) = 5 ∧
    external_input simQpulse ((599 : ℚ) * 1) = 5 ∧
    external_input simQpulse ((600 : ℚ) * 1) = 0 := by
  refine ⟨?_, ?_, ?_, ?_, ?_⟩
  · have h := (C3_pulse_window simQpulse rfl 300 (rowAt simQpulse 300)).1
    intro i
    have hcast : ((300 : ℕ) : ℚ) = (300 : ℚ) := by norm_num
    rw [← hcast]
    exact h i
  · norm_num [external_input, simQpulse, simQ]
  · norm_num [external_input, simQpulse, simQ]
  · norm_num [external_input, simQpulse, simQ]
  · norm_num [external_input, simQpulse, simQ]

/-- C4: when the stored head drive is the one the constructor computed from
a head population link, its entry for step `t` is the external population's
instantaneous rate (`s/delta_t`) averaged across that population's neurons
with weight `cos(position)` under the cosine projection and `sin(position)`
otherwise (scaled by `J_head`); and the loop at step `t` merely indexes this
stored list, subtracting the indexed value from the left population's input
and adding it to the right population's. -/
theorem C4_head_drive (sim : Sim K) (hp : HeadPop K) (useCos : Bool)
    (hI : sim.I_head
        = some (headDrive sim.J_head sim.delta_t sim.cos sim.sin hp useCos))
    (t : ℕ) (ht : t < hp.steps) (st : State K sim.N) :
    (headDrive sim.J_head sim.delta_t sim.cos sim.sin hp useCos).get? t
      = some (sim.J_head *
          ((∑ i, hp.s ⟨t, ht⟩ i / sim.delta_t
              * (if useCos then sim.cos (hp.x i) else sim.sin (hp.x i)))
            / (hp.M : K))) ∧
    stepInputs sim t st
      = some (fun i => (baseInputs sim t st).1 i
                - sim.J_head * ((∑ i, hp.s ⟨t, ht⟩ i / sim.delta_t
                    * (if useCos then sim.cos (hp.x i) else sim.sin (hp.x i)))
                  / (hp.M : K)),
              fun i => (baseInputs sim t st).2 i
                + sim.J_head * ((∑ i, hp.s ⟨t, ht⟩ i / sim.delta_t
                    * (if useCos then sim.cos (hp.x i) else sim.sin (hp.x i)))
                  / (hp.M : K))) := by
  have h1 : (headDrive sim.J_head sim.delta_t sim.cos sim.sin hp useCos).get? t
      = some (sim.J_head *
          ((∑ i, hp.s ⟨t, ht⟩ i / sim.delta_t
              * (if useCos then sim.cos (hp.x i) else sim.sin (hp.x i)))
            / (hp.M : K))) := by
    cases useCos
    · simp [headDrive, List.get?_ofFn, List.ofFnNthVal, ht, mean]
    · simp [headDrive, List.get?_ofFn, List.ofFnNthVal, ht, mean]
  refine ⟨h1, ?_⟩
  simp only [stepInputs, hI, h1]

/-- Witness for C4 at `simQC4` (whose stored drive is the constructor's
output for the head population `hpQ` with the cosine projection), step 0. -/
theorem C4_head_drive_witness :
    (headDrive simQC4.J_head simQC4.delta_t simQC4.cos simQC4.sin hpQ true).get? 0
      = some (simQC4.J_head *
          ((∑ i, hpQ.s ⟨0, Nat.one_pos⟩ i / simQC4.delta_t
              * (if true then simQC4.cos (hpQ.x i) else simQC4.sin (hpQ.x i)))
            / (hpQ.M : ℚ))) :=
  (C4_head_drive simQC4 hpQ true rfl 0 Nat.one_pos
    ((fun _ => 0, fun _ => 0, fun _ => 0),
     (fun _ => 0, fun _ => 0, fun _ => 0))).1

/-- C5: with `J = 0`, the pulse disabled and no head population, the loop's
input currents vanish identically, so each population's membrane potential
follows the deterministic map `h[t+1] = h[t] * (1 - delta_t/tau)` at every
step, unaffected by the spike randomness. -/
theorem C5_zero_coupling_decay (sim : Sim K) (hJ : sim.J = 0)
    (hext : sim.I_ext = false) (hh : sim.I_head = none) (t : ℕ) :
    stepInputs sim t (rowAt sim t) = some (fun _ => 0, fun _ => 0) ∧
    (∀ i, (rowAt sim (t + 1)).1.1 i
        = (rowAt sim t).1.1 i * (1 - sim.delta_t / sim.tau)) ∧
    (∀ i, (rowAt sim (t + 1)).2.1 i
        = (rowAt sim t).2.1 i * (1 - sim.delta_t / sim.tau)) := by
  have hbase : ∀ (u : ℕ) (s : State K sim.N),
      baseInputs sim u s = (fun _ => 0, fun _ => 0) := by
    intro u s
    simp [baseInputs, hext, two_population_recurrent_input, hJ]
  have hsi : stepInputs sim t (rowAt sim t) = some (fun _ => 0, fun _ => 0) := by
    rw [stepInputs_noHead sim hh, hbase]
  have hsome := rowsAux_isSome_noHead sim hh t
  have hst := rowsAux_eq_some sim t hsome
  have h2 : rowsAux sim (t + 1)
      = some (update sim t (rowAt sim t) (fun _ => 0) (fun _ => 0)) := by
    rw [rowsAux_succ, hst, Option.some_bind, hsi]
    rfl
  have hrow1 : rowAt sim (t + 1)
      = update sim t (rowAt sim t) (fun _ => 0) (fun _ => 0) := by
    simp [rowAt, h2]
  refine ⟨hsi, ?_, ?_⟩
  · intro i
    rw [hrow1]
    show (rowAt sim t).1.1 i
        + sim.delta_t / sim.tau * (-(rowAt sim t).1.1 i + sim.R * 0) = _
    ring
  · intro i
    rw [hrow1]
    show (rowAt sim t).2.1 i
        + sim.delta_t / sim.tau * (-(rowAt sim t).2.1 i + sim.R * 0) = _
    ring

/-- Witness for C5 at `simQ`, step 0. -/
theorem C5_zero_coupling_decay_witness :
    stepInputs simQ 0 (rowAt simQ 0) = some (fun _ => 0, fun _ => 0) ∧
    (∀ i, (rowAt simQ (0 + 1)).1.1 i
        = (rowAt simQ 0).1.1 i * (1 - simQ.delta_t / simQ.tau)) :=
  ⟨(C5_zero_coupling_decay simQ rfl rfl rfl 0).1,
   (C5_zero_coupling_decay simQ rfl rfl rfl 0).2.1⟩

/-- C6: for every valid configuration whose run completes, `simulation`
returns the tuple `(h_L, s_L, h_R, s_R)` in that order, each series holding
`num_steps = floor(T/delta_t)` rows of `N` entries. -/
theorem C6_output_shape [FloorRing K] (sim : Sim K) (hT : 0 < sim.T)
    (hd : 0 < sim.delta_t) (hs : (simulation sim).isSome = true) :
    (simulation sim).getD ([], [], [], [])
      = (hLseries sim, sLseries sim, hRseries sim, sRseries sim) ∧
    (hLseries sim).length = numSteps sim ∧
    (sLseries sim).length = numSteps sim ∧
    (hRseries sim).length = numSteps sim ∧
    (sRseries sim).length = numSteps sim ∧
    (∀ row ∈ hLseries sim, row.length = sim.N) ∧
    (∀ row ∈ sLseries sim, row.length = sim.N) ∧
    (∀ row ∈ hRseries sim, row.length = sim.N) ∧
    (∀ row ∈ sRseries sim, row.length = sim.N) ∧
    (numSteps sim : ℤ) = ⌊sim.T / sim.delta_t⌋ := by
  have hfloor : (numSteps sim : ℤ) = ⌊sim.T / sim.delta_t⌋ := by
    have hnn : (0 : ℤ) ≤ ⌊sim.T / sim.delta_t⌋ :=
      Int.floor_nonneg.mpr (le_of_lt (div_pos hT hd))
    simp [numSteps, Int.toNat_of_nonneg hnn]
  have hout : simulation sim
      = some (hLseries sim, sLseries sim, hRseries sim, sRseries sim) := by
    by_cases h0 : numSteps sim = 0
    · rw [simulation, if_pos h0] at hs
      cases hs
    · rw [simulation, if_neg h0] at hs ⊢
      by_cases hr : (rowsAux sim (numSteps sim - 1)).isSome = true
      · rw [if_pos hr]
      · rw [if_neg hr] at hs
        cases hs
  refine ⟨by rw [hout]; rfl, by simp [hLseries], by simp [sLseries],
    by simp [hRseries], by simp [sRseries], ?_, ?_, ?_, ?_, hfloor⟩
  · intro row hr2
    simp only [hLseries, List.mem_map] at hr2
    rcases hr2 with ⟨u, _, rfl⟩
    simp
  · intro row hr2
    simp only [sLseries, List.mem_map] at hr2
    rcases hr2 with ⟨u, _, rfl⟩
    simp
  · intro row hr2
    simp only [hRseries, List.mem_map] at hr2
    rcases hr2 with ⟨u, _, rfl⟩
    simp
  · intro row hr2
    simp only [sRseries, List.mem_map] at hr2
    rcases hr2 with ⟨u, _, rfl⟩
    simp

/-- Witness for C6 at `simQ` (`T = 2`, `delta_t = 1`, two rows). -/
theorem C6_output_shape_witness :
    (simulation simQ).getD ([], [], [], [])
      = (hLseries simQ, sLseries simQ, hRseries simQ, sRseries simQ) ∧
    (numSteps simQ : ℤ) = ⌊simQ.T / simQ.delta_t⌋ := by
  have hT : (0 : ℚ) < simQ.T := by norm_num [simQ]
  have hd : (0 : ℚ) < simQ.delta_t := by norm_num [simQ]
  have h2 : numSteps simQ = 2 := by norm_num [numSteps, simQ]; rfl
  have hr : (rowsAux simQ 1).isSome = true := by
    simp [rowsAux, stepInputs, simQ]
  have hs : (simulation simQ).isSome = true := by
    simp [simulation, h2, hr]
  exact ⟨(C6_output_shape simQ hT hd hs).1,
    (C6_output_shape simQ hT hd hs).2.2.2.2.2.2.2.2.2⟩

/-- C7 counterexample: the claim quantifies over every positive `N`, but at
`N = 1` the generator (numpy `linspace(0, 2π, 1)`) returns the single value
`0`, so the last value is `0`, not `2π`: both endpoints are not attained. -/
theorem C7_counterexample :
    initialize_positions simR1 ⟨0, Nat.one_pos⟩ = 0 ∧
    initialize_positions simR1 ⟨0, Nat.one_pos⟩ ≠ 2 * Real.pi := by
  have hval : initialize_positions simR1 ⟨0, Nat.one_pos⟩ = 0 := by
    simp [initialize_positions, simR1, linspace]
  refine ⟨hval, ?_⟩
  rw [hval]
  intro hcon
  have hπ := Real.pi_pos
  linarith

/-- C7 (amended): for every configuration over `ℝ` with the ring constant
`2π` and `N ≥ 2` neurons, the position generator is a pure function of `N`
returning strictly increasing values with first value `0`, last value `2π`
and constant spacing `2π/(N-1)`; for `N = 1` it returns the single value
`0` (see the counterexample). -/
theorem C7_positions_amended (sim : Sim ℝ) (hπ : sim.twoPi = 2 * Real.pi)
    (hN : 2 ≤ sim.N) :
    (∀ i j : Fin sim.N, i < j →
      initialize_positions sim i < initialize_positions sim j) ∧
    initialize_positions sim ⟨0, by omega⟩ = 0 ∧
    initialize_positions sim ⟨sim.N - 1, by omega⟩ = 2 * Real.pi ∧
    (∀ k : ℕ, ∀ hk : k + 1 < sim.N,
      initialize_positions sim ⟨k + 1, hk⟩
        - initialize_positions sim ⟨k, by omega⟩
        = 2 * Real.pi / ((sim.N : ℝ) - 1)) := by
  have hn1 : sim.N ≠ 1 := by omega
  have hval : ∀ i : Fin sim.N,
      initialize_positions sim i
        = ((i : ℕ) : ℝ) * (2 * Real.pi / ((sim.N : ℝ) - 1)) := by
    intro i
    simp [initialize_positions, linspace, hn1, hπ]
  have hden : (1 : ℝ) < (sim.N : ℝ) := by
    have h2 : (2 : ℝ) ≤ (sim.N : ℝ) := by exact_mod_cast hN
    linarith
  have hne : (sim.N : ℝ) - 1 ≠ 0 := sub_ne_zero.mpr (ne_of_gt hden)
  have hc : 0 < 2 * Real.pi / ((sim.N : ℝ) - 1) := by
    apply div_pos
    · linarith [Real.pi_pos]
    · linarith
  refine ⟨?_, ?_, ?_, ?_⟩
  · intro i j hij
    rw [hval i, hval j]
    have hnat : (i : ℕ) < (j : ℕ) := hij
    exact mul_lt_mul_of_pos_right (by exact_mod_cast hnat) hc
  · rw [hval]
    simp
  · rw [hval]
    have hcast : ((sim.N - 1 : ℕ) : ℝ) = (sim.N : ℝ) - 1 := by
      have h1 : 1 ≤ sim.N := by omega
      push_cast [h1]
      ring
    rw [hcast, mul_comm]
    exact div_mul_cancel₀ _ hne
  · intro k hk
    rw [hval, hval]
    push_cast
    ring

/-- Witness for C7 (amended) at `simR2` (`N = 2`): the last position is
`2π`. -/
theorem C7_positions_amended_witness :
    initialize_positions simR2 ⟨simR2.N - 1, by decide⟩ = 2 * Real.pi :=
  (C7_positions_amended simR2 rfl (by decide)).2.2.1

/-- C8 counterexample: a configuration with `tau = -1 ≤ 0` (all other
parameters valid, no head population) is not rejected anywhere: the run
completes and produces full output. -/
theorem C8_counterexample :
    simQtau.tau ≤ 0 ∧ simQtau.I_head = none ∧
    (simulation simQtau).isSome = true := by
  refine ⟨by norm_num [simQtau, simQ], rfl, ?_⟩
  have h2 : numSteps simQtau = 2 := by norm_num [numSteps, simQtau, simQ]; rfl
  have hr : (rowsAux simQtau 1).isSome = true := by
    simp [rowsAux, stepInputs, simQtau, simQ]
  simp [simulation, h2, hr]

/-- C8 (amended): no configuration validation exists. For every head-free
configuration — whatever the signs of `N`, `delta_t`, `tau`, `T` — the run
raises no eager error; it produces full output exactly when
`num_steps ≥ 1`, and when `num_steps < 1` the failure is the row-0 write
inside `simulation`, not a construction-time rejection. -/
theorem C8_no_validation [FloorRing K] (sim : Sim K) (hh : sim.I_head = none) :
    (simulation sim).isSome = true ↔ numSteps sim ≠ 0 := by
  by_cases h0 : numSteps sim = 0
  · simp [simulation, h0]
  · simp [simulation, h0, rowsAux_isSome_noHead sim hh]

/-- Witness for C8 (amended) at `simQ`. -/
theorem C8_no_validation_witness :
    (simulation simQ).isSome = true ↔ numSteps simQ ≠ 0 :=
  C8_no_validation simQ rfl

/-- C9 counterexample: `simQhead` stores a head drive of length 1 while
`num_steps = 2`, i.e. the drive's series is shorter than `num_steps`; no
failure of any kind occurs — the run completes and returns full output. -/
theorem C9_counterexample :
    simQhead.I_head = some [0] ∧
    (simQhead.I_head.getD []).length < numSteps simQhead ∧
    (simulation simQhead).isSome = true := by
  have h2 : numSteps simQhead = 2 := by norm_num [numSteps, simQhead, simQ]; rfl
  refine ⟨rfl, ?_, ?_⟩
  · rw [h2]
    simp [simQhead]
  · have hr : (rowsAux simQhead 1).isSome = true := by
      simp [rowsAux, stepInputs, simQhead, simQ]
    simp [simulation, h2, hr]

/-- C9 (amended): no shape check exists. With a stored head drive of length
`L`: the run completes iff `num_steps ≥ 1` and `L ≥ num_steps - 1` (so
`L = num_steps - 1`, one shorter than `num_steps`, is silently accepted);
every row up to `L` is computed, and the read of entry `L` fails (an index
error mid-loop, not an initialization-time `ShapeMismatchError`). -/
theorem C9_short_drive [FloorRing K] (sim : Sim K) (l : List K)
    (hh : sim.I_head = some l) :
    ((simulation sim).isSome = true
        ↔ (numSteps sim ≠ 0 ∧ numSteps sim - 1 ≤ l.length)) ∧
    (∀ t, t ≤ l.length → (rowsAux sim t).isSome = true) ∧
    rowsAux sim (l.length + 1) = none := by
  have hiff := rowsAux_isSome_head sim l hh
  refine ⟨?_, fun t ht => (hiff t).mpr ht, ?_⟩
  · by_cases h0 : numSteps sim = 0
    · simp [simulation, h0]
    · have h1 := hiff (numSteps sim - 1)
      constructor
      · intro hs
        rw [simulation, if_neg h0] at hs
        by_cases hr : (rowsAux sim (numSteps sim - 1)).isSome = true
        · exact ⟨h0, h1.mp hr⟩
        · rw [if_neg hr] at hs
          cases hs
      · rintro ⟨-, hle⟩
        rw [simulation, if_neg h0, if_pos (h1.mpr hle)]
        rfl
  · rcases Option.isSome_iff_exists.mp ((hiff l.length).mpr le_rfl) with ⟨st, hst⟩
    rw [rowsAux_succ, hst, Option.some_bind]
    have hg : l.get? l.length = none := List.get?_eq_none.mpr le_rfl
    simp [stepInputs, hh, hg]

/-- Witness for C9 (amended) at `simQhead2` (three steps, drive of length
1): the run aborts, rows up to 1 exist, and row 2 fails. -/
theorem C9_short_drive_witness :
    ((simulation simQhead2).isSome = true
        ↔ (numSteps simQhead2 ≠ 0
            ∧ numSteps simQhead2 - 1 ≤ ([(0 : ℚ)]).length)) ∧
    rowsAux simQhead2 (([(0 : ℚ)]).length + 1) = none :=
  ⟨(C9_short_drive simQhead2 [0] rfl).1,
   (C9_short_drive simQhead2 [0] rfl).2.2⟩

/-- C10: calling `simulation()` with the default argument binds the plain
class-level function `uniform_voltage`, which `first_step_update` then
calls with zero arguments although it needs the instance argument, so the
default call dies in a `TypeError` (modelled as `none`) for every
configuration; supplying a zero-argument callable instead makes the run
proceed with the vectors it draws. -/
theorem C10_default_initializer [FloorRing K] (sim : Sim K) :
    simulationWithInit sim InitArg.classAttr = none ∧
    (∀ d : Bool → Vec K sim.N,
      simulationWithInit sim (InitArg.boundMethod d)
        = simulation { sim with initL := d true, initR := d false }) :=
  ⟨rfl, fun _ => rfl⟩

end TwoPop
